import Mathlib

/-!
Verification development for `tools/library-builder/stl_to_png.py`, function
`render_stl_to_png_perspective`.  Real-valued quantities of the Python code
(numpy float32/float64) are embedded as exact rationals `ℚ`; integer pixel
coordinates and image dimensions as `ℤ`.  Trigonometric values that the code
obtains from `np.cos`/`np.sin` are abstracted as oracle parameters, so that
statements about the exact-rotation lookup table hold for every possible
value of those calls.
-/

namespace StlPng

/-- A 3-component vector with rational coordinates, standing for a numpy
3-vector of the Python code. -/
structure Vec3 where
  x : ℚ
  y : ℚ
  z : ℚ
deriving DecidableEq

/-- Dot product of two 3-vectors, `a.dot(b)` in numpy. -/
def dot3 (a b : Vec3) : ℚ := a.x * b.x + a.y * b.y + a.z * b.z

/-- Cross product, `np.cross(a, b)`. -/
def cross3 (a b : Vec3) : Vec3 :=
  ⟨a.y * b.z - a.z * b.y, a.z * b.x - a.x * b.z, a.x * b.y - a.y * b.x⟩

/-- The default world-up vector `np.array([0.0, 0.0, 1.0])` (line 282). -/
def worldUpZ : Vec3 := ⟨0, 0, 1⟩

/-- The substitute world-up vector `np.array([0.0, -1.0, 0.0])` (line 284). -/
def negY : Vec3 := ⟨0, -1, 0⟩

/-- Lines 282-284 of `stl_to_png.py`: world-up starts as `+Z`; if
`abs(forward.dot(world_up)) > 0.999` it is replaced by `-Y`. -/
def chooseWorldUp (forward : Vec3) : Vec3 :=
  if |dot3 forward worldUpZ| > 999 / 1000 then negY else worldUpZ

/-- Lines 221-226: the `EXACT_ROTATIONS` dictionary mapping the canonical
angles to exact `(cos, sin)` pairs; `none` models a missing key. -/
def EXACT_ROTATIONS (k : ℤ) : Option (ℚ × ℚ) :=
  if k = 0 then some (1, 0)
  else if k = 90 then some (0, 1)
  else if k = 180 then some (-1, 0)
  else if k = 270 then some (0, -1)
  else none

/-- Lines 229-232: `cos_a, sin_a = EXACT_ROTATIONS.get(rotation % 360,
(np.cos(np.radians(rotation)), np.sin(np.radians(rotation))))`.  The oracle
parameters `cosDeg`/`sinDeg` stand for the two trigonometric calls. -/
def rotCoeffs (cosDeg sinDeg : ℤ → ℚ) (rotation : ℤ) : ℚ × ℚ :=
  (EXACT_ROTATIONS (rotation % 360)).getD (cosDeg rotation, sinDeg rotation)

/-- Lines 236-242: in-place Z rotation of one 3-vector:
`x' = cos_a*x - sin_a*y`, `y' = sin_a*x + cos_a*y`, `z` untouched. -/
def rotZ (c s : ℚ) (v : Vec3) : Vec3 :=
  ⟨c * v.x - s * v.y, s * v.x + c * v.y, v.z⟩

/-- One triangular face of the mesh: three vertex positions, as one row of
`stl_mesh.vectors`. -/
structure Face where
  a : Vec3
  b : Vec3
  c : Vec3
deriving DecidableEq

/-- Rotation applied to the three vertices of a face (lines 233-237 act on
`v[:, :, 0]`/`v[:, :, 1]` of every face at once). -/
def rotFace (c s : ℚ) (f : Face) : Face :=
  ⟨rotZ c s f.a, rotZ c s f.b, rotZ c s f.c⟩

/-- The numpy-stl mesh state the rotation block touches: the `vectors` and
`normals` arrays plus the cached `_min`/`_max` bound attributes (present =
`some`). -/
structure STLMesh where
  vectors : List Face
  normals : List Vec3
  cachedMin : Option Vec3
  cachedMax : Option Vec3
deriving DecidableEq

/-- Lines 228-245: `if rotation != 0:` rotate all vertices and normals
in place with the coefficients from `rotCoeffs`, then delete the cached
`_min`/`_max` attributes; with `rotation == 0` nothing at all happens. -/
def applyRotation (cosDeg sinDeg : ℤ → ℚ) (rotation : ℤ) (m : STLMesh) : STLMesh :=
  if rotation = 0 then m
  else
    { vectors := m.vectors.map
        (rotFace (rotCoeffs cosDeg sinDeg rotation).1 (rotCoeffs cosDeg sinDeg rotation).2)
      normals := m.normals.map
        (rotZ (rotCoeffs cosDeg sinDeg rotation).1 (rotCoeffs cosDeg sinDeg rotation).2)
      cachedMin := none
      cachedMax := none }

/-- The x coordinates of the three vertices of a face. -/
def faceXs (f : Face) : List ℚ := [f.a.x, f.b.x, f.c.x]

/-- The y coordinates of the three vertices of a face. -/
def faceYs (f : Face) : List ℚ := [f.a.y, f.b.y, f.c.y]

/-- All vertex x coordinates of the mesh, in face order. -/
def meshXs (m : STLMesh) : List ℚ := m.vectors.flatMap faceXs

/-- All vertex y coordinates of the mesh, in face order. -/
def meshYs (m : STLMesh) : List ℚ := m.vectors.flatMap faceYs

/-- Minimum of a list of rationals, `np.min` (0 on the empty list, where
numpy would fail; the bounding-box claims never depend on that value). -/
def npMin : List ℚ → ℚ
  | [] => 0
  | q :: l => l.foldl min q

/-- Maximum of a list of rationals, `np.max`. -/
def npMax : List ℚ → ℚ
  | [] => 0
  | q :: l => l.foldl max q

/-- Bounding-box width of the mesh: `max_[0] - min_[0]` of numpy-stl. -/
def meshWidth (m : STLMesh) : ℚ := npMax (meshXs m) - npMin (meshXs m)

/-- Bounding-box height of the mesh: `max_[1] - min_[1]`. -/
def meshHeight (m : STLMesh) : ℚ := npMax (meshYs m) - npMin (meshYs m)

/-- Line 308: `aspect_ratio = xr / yr if yr > 0 else 1.0`. -/
def aspectOf (xr yr : ℚ) : ℚ := if yr > 0 then xr / yr else 1

/-- Lines 310-313: output image dimensions `(W, H)` from the maximum
dimension and the projected ranges. -/
def imageDims (maxd : ℤ) (xr yr : ℚ) : ℤ × ℤ :=
  if aspectOf xr yr ≥ 1 then
    (maxd, max 1 (round ((maxd : ℚ) / aspectOf xr yr)))
  else
    (max 1 (round ((maxd : ℚ) * aspectOf xr yr)), maxd)

/-- One triangle as it reaches the rasterization loop (lines 331-334): the
three vertices' pixel-space coordinates `px[i]`/`py[i]`, their view-space
depths `z_view[i]`, and the face's flat-shaded color `face_rgb[i]`. -/
structure Tri where
  x0 : ℚ
  y0 : ℚ
  z0 : ℚ
  x1 : ℚ
  y1 : ℚ
  z1 : ℚ
  x2 : ℚ
  y2 : ℚ
  z2 : ℚ
  red : ℚ
  green : ℚ
  blue : ℚ
deriving DecidableEq

/-- Line 354: `denom = (y1 - y2) * (x0 - x2) + (x2 - x1) * (y0 - y2)`, the
signed-area edge-function denominator. -/
def denom (t : Tri) : ℚ :=
  (t.y1 - t.y2) * (t.x0 - t.x2) + (t.x2 - t.x1) * (t.y0 - t.y2)

/-- Lines 358-359: first barycentric weight at grid point `(gx, gy)`,
computed as in the code via `inv_d = 1.0 / denom`. -/
def w0 (t : Tri) (gx gy : ℚ) : ℚ :=
  ((t.y1 - t.y2) * (gx - t.x2) + (t.x2 - t.x1) * (gy - t.y2)) * (1 / denom t)

/-- Line 360: second barycentric weight. -/
def w1 (t : Tri) (gx gy : ℚ) : ℚ :=
  ((t.y2 - t.y0) * (gx - t.x2) + (t.x0 - t.x2) * (gy - t.y2)) * (1 / denom t)

/-- Line 361: `w2 = 1.0 - w0 - w1`. -/
def w2 (t : Tri) (gx gy : ℚ) : ℚ := 1 - w0 t gx gy - w1 t gx gy

/-- Line 368: barycentric interpolation of the view-space depth,
`w0*vz[0] + w1*vz[1] + w2*vz[2]`. -/
def zInterp (t : Tri) (gx gy : ℚ) : ℚ :=
  w0 t gx gy * t.z0 + w1 t gx gy * t.z1 + w2 t gx gy * t.z2

/-- Python `int(...)` on a rational value: truncation toward zero. -/
def pyInt (q : ℚ) : ℤ := if q < 0 then ⌈q⌉ else ⌊q⌋

/-- Line 337: `bx0 = max(0, int(vx.min()))`. -/
def bx0 (t : Tri) : ℤ := max 0 (pyInt (min (min t.x0 t.x1) t.x2))

/-- Line 338: `bx1 = min(W - 1, int(np.ceil(vx.max())))`. -/
def bx1 (W : ℤ) (t : Tri) : ℤ := min (W - 1) ⌈max (max t.x0 t.x1) t.x2⌉

/-- Line 339: `by0 = max(0, int(vy.min()))`. -/
def by0 (t : Tri) : ℤ := max 0 (pyInt (min (min t.y0 t.y1) t.y2))

/-- Line 340: `by1 = min(H - 1, int(np.ceil(vy.max())))`. -/
def by1 (H : ℤ) (t : Tri) : ℤ := min (H - 1) ⌈max (max t.y0 t.y1) t.y2⌉

/-- Pixel `(ix, iy)` lies in the triangle's clipped bounding box, i.e. it is
one of the grid points enumerated by the `np.meshgrid` of lines 345-348 (an
empty or inverted box, line 341, admits no pixel). -/
def inBBox (W H : ℤ) (t : Tri) (ix iy : ℤ) : Prop :=
  bx0 t ≤ ix ∧ ix ≤ bx1 W t ∧ by0 t ≤ iy ∧ iy ≤ by1 H t

instance (W H : ℤ) (t : Tri) (ix iy : ℤ) : Decidable (inBBox W H t ix iy) := by
  unfold inBBox; infer_instance

/-- Line 363: `inside = (w0 >= 0) & (w1 >= 0) & (w2 >= 0)` at a grid point. -/
def inside (t : Tri) (gx gy : ℚ) : Prop :=
  0 ≤ w0 t gx gy ∧ 0 ≤ w1 t gx gy ∧ 0 ≤ w2 t gx gy

instance (t : Tri) (gx gy : ℚ) : Decidable (inside t gx gy) := by
  unfold inside; infer_instance

/-- The triangle is retained (not skipped by the guards of lines 341 and
355-356) and covers pixel `(ix, iy)`: the pixel is in the clipped bounding
box, `abs(denom) >= 0.5`, and all three barycentric weights there are
nonnegative. -/
def retainedCovers (W H : ℤ) (t : Tri) (ix iy : ℤ) : Prop :=
  inBBox W H t ix iy ∧ (1 / 2 : ℚ) ≤ |denom t| ∧ inside t ix iy

instance (W H : ℤ) (t : Tri) (ix iy : ℤ) : Decidable (retainedCovers W H t ix iy) := by
  unfold retainedCovers; infer_instance

/-- The per-pixel buffer state: one cell of `depth_buf` (`⊤` = the initial
`np.inf`, line 329) together with the corresponding RGBA cell of
`color_buf` (line 328). -/
structure PixState where
  depth : WithTop ℚ
  red : ℚ
  green : ℚ
  blue : ℚ
  alpha : ℚ
deriving DecidableEq

/-- Lines 363-377 restricted to one pixel: the pixel is overwritten exactly
when the triangle covers it and its interpolated depth is strictly below
the stored depth (`closer = z_interp < depth_buf[ay, ax]`); the write sets
the depth, the flat-shaded RGB, and alpha 1. -/
def pixelStep (W H : ℤ) (t : Tri) (ix iy : ℤ) (st : PixState) : PixState :=
  if retainedCovers W H t ix iy ∧ (zInterp t ix iy : WithTop ℚ) < st.depth then
    ⟨(zInterp t ix iy : WithTop ℚ), t.red, t.green, t.blue, 1⟩
  else st

/-- The rasterization loop of lines 331-377 observed at one pixel: fold of
`pixelStep` over the triangle list in submission order. -/
def rasterPix (W H : ℤ) (ts : List Tri) (ix iy : ℤ) (st : PixState) : PixState :=
  ts.foldl (fun s t => pixelStep W H t ix iy s) st

/-- One iteration of the loop over the whole buffer. -/
def stepBuf (W H : ℤ) (t : Tri) (buf : ℤ → ℤ → PixState) : ℤ → ℤ → PixState :=
  fun ix iy => pixelStep W H t ix iy (buf ix iy)

/-- The whole rasterization loop over the buffer. -/
def rasterize (W H : ℤ) (ts : List Tri) (buf : ℤ → ℤ → PixState) : ℤ → ℤ → PixState :=
  ts.foldl (fun b t => stepBuf W H t b) buf

/-- Lines 328-329: the initial buffer cell — RGBA all zero, depth `np.inf`. -/
def initPix : PixState := ⟨⊤, 0, 0, 0, 0⟩

/-- The initial buffers: every pixel starts at `initPix`. -/
def initBuf : ℤ → ℤ → PixState := fun _ _ => initPix

/-- The color+depth buffer type produced by the rasterizer. -/
def FrameBuf := ℤ → ℤ → PixState

/-- Lines 213-395: the control-flow skeleton of
`render_stl_to_png_perspective`.  `load` models `mesh.Mesh.from_file`
(line 217), which may raise `FileNotFoundError`; `buildImage` models
everything from line 218 through the completion of the buffer at line 377,
any exception of which is caught by the handlers of lines 387-395; the
returned list records the writes to the output path — line 379
(`plt.imsave`, modelled as one atomic write of the finished buffer) is the
only such write, and it is reached only when every prior stage succeeded.
The function returns `True` on success and `False` on any caught failure. -/
def renderPerspectiveRun (load : Except String (List Tri))
    (buildImage : List Tri → Except String FrameBuf) : Bool × List FrameBuf :=
  match load with
  | Except.error _ => (false, [])
  | Except.ok tris =>
    match buildImage tris with
    | Except.error _ => (false, [])
    | Except.ok img => (true, [img])

theorem foldl_max_neg (l : List ℚ) : ∀ a : ℚ,
    (l.map (fun q => -q)).foldl max (-a) = -(l.foldl min a) := by
  induction l with
  | nil => intro a; simp
  | cons x xs ih =>
    intro a
    simp only [List.map_cons, List.foldl_cons, max_neg_neg]
    exact ih (min a x)

theorem foldl_min_neg (l : List ℚ) : ∀ a : ℚ,
    (l.map (fun q => -q)).foldl min (-a) = -(l.foldl max a) := by
  induction l with
  | nil => intro a; simp
  | cons x xs ih =>
    intro a
    simp only [List.map_cons, List.foldl_cons, min_neg_neg]
    exact ih (max a x)

theorem npMax_map_neg (l : List ℚ) : npMax (l.map (fun q => -q)) = -npMin l := by
  cases l with
  | nil => simp [npMax, npMin]
  | cons x xs => simpa [npMax, npMin] using foldl_max_neg xs x

theorem npMin_map_neg (l : List ℚ) : npMin (l.map (fun q => -q)) = -npMax l := by
  cases l with
  | nil => simp [npMax, npMin]
  | cons x xs => simpa [npMax, npMin] using foldl_min_neg xs x

theorem meshXs_rot90 (l : List Face) :
    (l.map (rotFace 0 1)).flatMap faceXs = (l.flatMap faceYs).map (fun q => -q) := by
  induction l with
  | nil => simp
  | cons f fs ih => simp [faceXs, faceYs, rotFace, rotZ, ih]

theorem meshYs_rot90 (l : List Face) :
    (l.map (rotFace 0 1)).flatMap faceYs = l.flatMap faceXs := by
  induction l with
  | nil => simp
  | cons f fs ih => simp [faceXs, faceYs, rotFace, rotZ, ih]

theorem rotCoeffs_90 (cosDeg sinDeg : ℤ → ℚ) : rotCoeffs cosDeg sinDeg 90 = (0, 1) := by
  norm_num [rotCoeffs, EXACT_ROTATIONS]

/-- C5: for rotation angles 90, 180 and 270 the Z-rotation uses the exact
cosine/sine pairs (0,1), (-1,0), (0,-1) from the lookup table, independent
of the values of the trigonometric oracles; for any other nonzero angle the
coefficients are exactly the `cos`/`sin` calls; and rotating any mesh by 90
degrees exactly transposes its bounding-box width and height. -/
theorem exact_rotation_table (cosDeg sinDeg : ℤ → ℚ) :
    rotCoeffs cosDeg sinDeg 90 = (0, 1) ∧
    rotCoeffs cosDeg sinDeg 180 = (-1, 0) ∧
    rotCoeffs cosDeg sinDeg 270 = (0, -1) ∧
    (∀ r : ℤ, r ≠ 0 → r % 360 ≠ 0 → r % 360 ≠ 90 → r % 360 ≠ 180 → r % 360 ≠ 270 →
      rotCoeffs cosDeg sinDeg r = (cosDeg r, sinDeg r)) ∧
    (∀ m : STLMesh,
      meshWidth (applyRotation cosDeg sinDeg 90 m) = meshHeight m ∧
      meshHeight (applyRotation cosDeg sinDeg 90 m) = meshWidth m) := by
  refine ⟨rotCoeffs_90 cosDeg sinDeg, ?_, ?_, ?_, ?_⟩
  · norm_num [rotCoeffs, EXACT_ROTATIONS]
  · norm_num [rotCoeffs, EXACT_ROTATIONS]
  · intro r _ h0 h90 h180 h270
    simp [rotCoeffs, EXACT_ROTATIONS, h0, h90, h180, h270]
  · intro m
    have hv : (applyRotation cosDeg sinDeg 90 m).vectors = m.vectors.map (rotFace 0 1) := by
      simp [applyRotation, rotCoeffs_90]
    constructor
    · rw [meshWidth, meshHeight, meshXs, meshYs, hv, meshXs_rot90,
        npMax_map_neg, npMin_map_neg]
      ring
    · rw [meshHeight, meshWidth, meshYs, meshXs, hv, meshYs_rot90]

/-- Witness for `exact_rotation_table`: at angle 45 (not a multiple of 90)
the fallback trigonometric pair is used, for explicit oracles. -/
theorem exact_rotation_table_witness :
    (45 : ℤ) ≠ 0 ∧ (45 : ℤ) % 360 ≠ 0 ∧ (45 : ℤ) % 360 ≠ 90 ∧
    (45 : ℤ) % 360 ≠ 180 ∧ (45 : ℤ) % 360 ≠ 270 ∧
    rotCoeffs (fun z => (z : ℚ)) (fun z => (z : ℚ) + 1) 45 = (((45 : ℤ) : ℚ), ((45 : ℤ) : ℚ) + 1) :=
  ⟨by decide, by decide, by decide, by decide, by decide,
    (exact_rotation_table (fun z => (z : ℚ)) (fun z => (z : ℚ) + 1)).2.2.2.1 45
      (by decide) (by decide) (by decide) (by decide) (by decide)⟩

/-- C9: a nonzero in-place Z-rotation preserves the face count, the normal
count and the face ordering (the i-th output face/normal is the rotation of
the i-th input one), every z component of vertices and normals is unchanged
(the rotation touches only x and y), and both cached bound attributes are
deleted. -/
theorem rotation_frame_effects (cosDeg sinDeg : ℤ → ℚ) (rotation : ℤ) (m : STLMesh)
    (hr : rotation ≠ 0) :
    (applyRotation cosDeg sinDeg rotation m).vectors.length = m.vectors.length ∧
    (applyRotation cosDeg sinDeg rotation m).normals.length = m.normals.length ∧
    (∀ i : ℕ, (applyRotation cosDeg sinDeg rotation m).vectors[i]? =
      (m.vectors[i]?).map
        (rotFace (rotCoeffs cosDeg sinDeg rotation).1 (rotCoeffs cosDeg sinDeg rotation).2)) ∧
    (∀ i : ℕ, (applyRotation cosDeg sinDeg rotation m).normals[i]? =
      (m.normals[i]?).map
        (rotZ (rotCoeffs cosDeg sinDeg rotation).1 (rotCoeffs cosDeg sinDeg rotation).2)) ∧
    (∀ c s : ℚ, ∀ f : Face,
      (rotFace c s f).a.z = f.a.z ∧ (rotFace c s f).b.z = f.b.z ∧ (rotFace c s f).c.z = f.c.z) ∧
    (∀ c s : ℚ, ∀ v : Vec3, (rotZ c s v).z = v.z) ∧
    (applyRotation cosDeg sinDeg rotation m).cachedMin = none ∧
    (applyRotation cosDeg sinDeg rotation m).cachedMax = none := by
  refine ⟨?_, ?_, ?_, ?_, ?_, ?_, ?_, ?_⟩ <;>
    simp [applyRotation, hr, rotFace, rotZ]

/-- Witness for `rotation_frame_effects` at rotation 90 on a one-face mesh
with cached bounds present. -/
theorem rotation_frame_effects_witness :
    (90 : ℤ) ≠ 0 ∧
    (applyRotation (fun _ => 37) (fun _ => 59) 90
      ⟨[⟨⟨1, 2, 3⟩, ⟨4, 5, 6⟩, ⟨7, 8, 9⟩⟩], [⟨0, 0, 1⟩], some ⟨0, 0, 0⟩,
        some ⟨1, 1, 1⟩⟩).cachedMin = none ∧
    (applyRotation (fun _ => 37) (fun _ => 59) 90
      ⟨[⟨⟨1, 2, 3⟩, ⟨4, 5, 6⟩, ⟨7, 8, 9⟩⟩], [⟨0, 0, 1⟩], some ⟨0, 0, 0⟩,
        some ⟨1, 1, 1⟩⟩).cachedMax = none :=
  ⟨by decide,
    (rotation_frame_effects (fun _ => 37) (fun _ => 59) 90 _ (by decide)).2.2.2.2.2.2.1,
    (rotation_frame_effects (fun _ => 37) (fun _ => 59) 90 _ (by decide)).2.2.2.2.2.2.2⟩

/-- C10: the rotation coefficients are selected by the angle reduced modulo
360 (Python `%`, hence nonnegative remainder): every integer congruent to
90, 180 or 270 modulo 360 — including -270 and 450 — gets the exact table
pair, and rotation 0 skips the whole block, leaving the mesh (vertices,
normals and cached bounds) untouched. -/
theorem rotation_mod_selection (cosDeg sinDeg : ℤ → ℚ) (m : STLMesh) :
    (∀ r : ℤ, r % 360 = 90 → rotCoeffs cosDeg sinDeg r = (0, 1)) ∧
    (∀ r : ℤ, r % 360 = 180 → rotCoeffs cosDeg sinDeg r = (-1, 0)) ∧
    (∀ r : ℤ, r % 360 = 270 → rotCoeffs cosDeg sinDeg r = (0, -1)) ∧
    rotCoeffs cosDeg sinDeg (-270) = (0, 1) ∧
    rotCoeffs cosDeg sinDeg 450 = (0, 1) ∧
    applyRotation cosDeg sinDeg 0 m = m := by
  have h90 : ∀ r : ℤ, r % 360 = 90 → rotCoeffs cosDeg sinDeg r = (0, 1) := by
    intro r hr; norm_num [rotCoeffs, hr, EXACT_ROTATIONS]
  refine ⟨h90, ?_, ?_, h90 (-270) (by decide), h90 450 (by decide), ?_⟩
  · intro r hr; norm_num [rotCoeffs, hr, EXACT_ROTATIONS]
  · intro r hr; norm_num [rotCoeffs, hr, EXACT_ROTATIONS]
  · simp [applyRotation]

/-- Witness for `rotation_mod_selection`: the congruence hypothesis holds
at -270, and the table pair is produced there for explicit oracles. -/
theorem rotation_mod_selection_witness :
    (-270 : ℤ) % 360 = 90 ∧ rotCoeffs (fun _ => 37) (fun _ => 59) (-270) = (0, 1) :=
  ⟨by decide,
    (rotation_mod_selection (fun _ => 37) (fun _ => 59) ⟨[], [], none, none⟩).1 (-270)
      (by decide)⟩

/-- C2 counterexample: at the top-down forward vector (0,0,-1) — the camera
direction for tilt 0 — the code substitutes -Y as world-up although the dot
product with +Z is -1, which does not exceed 0.999; so "replaced exactly
when the dot product exceeds 0.999" is false (the code tests the absolute
value). -/
theorem worldUp_claim_counterexample :
    ¬ (chooseWorldUp ⟨0, 0, -1⟩ = negY ↔ dot3 ⟨0, 0, -1⟩ worldUpZ > 999 / 1000) := by
  with_unfolding_all decide

/-- C2 (amended): world-up is replaced by (0,-1,0) exactly when the
absolute value of the dot product of the forward vector with +Z exceeds
0.999, otherwise it stays (0,0,1); and for every unit forward vector the
chosen world-up has a nonzero cross product with forward. -/
theorem worldUp_abs_threshold :
    (∀ f : Vec3, chooseWorldUp f = negY ↔ |dot3 f worldUpZ| > 999 / 1000) ∧
    (∀ f : Vec3, chooseWorldUp f = negY ∨ chooseWorldUp f = worldUpZ) ∧
    (∀ f : Vec3, dot3 f f = 1 → cross3 f (chooseWorldUp f) ≠ ⟨0, 0, 0⟩) := by
  refine ⟨?_, ?_, ?_⟩
  · intro f
    unfold chooseWorldUp
    split_ifs with h
    · exact ⟨fun _ => h, fun _ => rfl⟩
    · constructor
      · intro he
        exact absurd he (by decide)
      · intro hgt
        exact absurd hgt h
  · intro f
    unfold chooseWorldUp
    split_ifs with h
    · exact Or.inl rfl
    · exact Or.inr rfl
  · intro f hunit
    have hd : dot3 f worldUpZ = f.z := by simp [dot3, worldUpZ]
    unfold chooseWorldUp
    split_ifs with h
    · intro hc
      have hzx := congrArg Vec3.x hc
      have hz : f.z = 0 := by simpa [cross3, negY] using hzx
      rw [hd, hz] at h
      norm_num at h
    · intro hc
      have hcx := congrArg Vec3.x hc
      have hcy := congrArg Vec3.y hc
      have hy : f.y = 0 := by simpa [cross3, worldUpZ] using hcx
      have hx : f.x = 0 := by simpa [cross3, worldUpZ] using hcy
      rw [hd] at h
      have hb := abs_le.mp (not_lt.mp h)
      have hsq : f.z * f.z = 1 := by
        have := hunit
        rw [dot3, hx, hy] at this
        linarith
      nlinarith [hb.1, hb.2]

/-- Witness for `worldUp_abs_threshold`: the unit forward vector (0,0,-1)
satisfies the hypothesis, and the chosen world-up there is not parallel to
it. -/
theorem worldUp_abs_threshold_witness :
    dot3 ⟨0, 0, -1⟩ ⟨0, 0, -1⟩ = 1 ∧
    cross3 ⟨0, 0, -1⟩ (chooseWorldUp ⟨0, 0, -1⟩) ≠ ⟨0, 0, 0⟩ :=
  ⟨by with_unfolding_all decide,
    worldUp_abs_threshold.2.2 ⟨0, 0, -1⟩ (by with_unfolding_all decide)⟩

theorem round_mono_rat {a b : ℚ} (h : a ≤ b) : round a ≤ round b := by
  rw [round_eq, round_eq]
  exact Int.floor_le_floor (by linarith)

/-- C8: the aspect value is the x-range over the y-range (1 when the
y-range is 0); with aspect at least 1 the dimensions are
(max_dimension, round(max_dimension/aspect)) and otherwise
(round(max_dimension*aspect), max_dimension), each clamped to at least 1
pixel; and for max_dimension at least 1 the larger dimension equals
max_dimension. -/
theorem image_dims_formula (maxd : ℤ) (xr yr : ℚ)
    (hmax : 1 ≤ maxd) (hx : 0 ≤ xr) (_hy : 0 ≤ yr) :
    (yr = 0 → aspectOf xr yr = 1) ∧
    (aspectOf xr yr ≥ 1 →
      imageDims maxd xr yr = (maxd, max 1 (round ((maxd : ℚ) / aspectOf xr yr)))) ∧
    (aspectOf xr yr < 1 →
      imageDims maxd xr yr = (max 1 (round ((maxd : ℚ) * aspectOf xr yr)), maxd)) ∧
    1 ≤ (imageDims maxd xr yr).1 ∧ 1 ≤ (imageDims maxd xr yr).2 ∧
    max (imageDims maxd xr yr).1 (imageDims maxd xr yr).2 = maxd := by
  have hmq : (1 : ℚ) ≤ (maxd : ℚ) := by exact_mod_cast hmax
  have hmq0 : (0 : ℚ) ≤ (maxd : ℚ) := by linarith
  have hfall : yr = 0 → aspectOf xr yr = 1 := by
    intro h0
    unfold aspectOf
    rw [h0]
    simp
  rcases le_or_lt 1 (aspectOf xr yr) with hge | hlt
  · have hid : imageDims maxd xr yr =
        (maxd, max 1 (round ((maxd : ℚ) / aspectOf xr yr))) := by
      unfold imageDims
      rw [if_pos hge]
    have hdiv : (maxd : ℚ) / aspectOf xr yr ≤ (maxd : ℚ) := div_le_self hmq0 hge
    have hround : round ((maxd : ℚ) / aspectOf xr yr) ≤ maxd := by
      calc round ((maxd : ℚ) / aspectOf xr yr) ≤ round ((maxd : ℚ)) := round_mono_rat hdiv
        _ = maxd := round_intCast maxd
    have hH : max 1 (round ((maxd : ℚ) / aspectOf xr yr)) ≤ maxd := max_le hmax hround
    refine ⟨hfall, fun _ => hid, fun hc => absurd hc (not_lt.mpr hge), ?_, ?_, ?_⟩
    · rw [hid]
      exact hmax
    · rw [hid]
      exact le_max_left 1 _
    · rw [hid]
      exact max_eq_left hH
  · have hid : imageDims maxd xr yr =
        (max 1 (round ((maxd : ℚ) * aspectOf xr yr)), maxd) := by
      unfold imageDims
      rw [if_neg (not_le.mpr hlt)]
    have ha0 : 0 ≤ aspectOf xr yr := by
      unfold aspectOf
      split_ifs with h
      · positivity
      · norm_num
    have hmul : (maxd : ℚ) * aspectOf xr yr ≤ (maxd : ℚ) := by nlinarith
    have hround : round ((maxd : ℚ) * aspectOf xr yr) ≤ maxd := by
      calc round ((maxd : ℚ) * aspectOf xr yr) ≤ round ((maxd : ℚ)) := round_mono_rat hmul
        _ = maxd := round_intCast maxd
    have hW : max 1 (round ((maxd : ℚ) * aspectOf xr yr)) ≤ maxd := max_le hmax hround
    refine ⟨hfall, fun hc => absurd hlt (not_lt.mpr hc), fun _ => hid, ?_, ?_, ?_⟩
    · rw [hid]
      exact le_max_left 1 _
    · rw [hid]
      exact hmax
    · rw [hid]
      exact max_eq_right hW

/-- Witness for `image_dims_formula` at max_dimension 800 and projected
ranges 4 and 2. -/
theorem image_dims_formula_witness :
    (1 : ℤ) ≤ 800 ∧ (0 : ℚ) ≤ 4 ∧ (0 : ℚ) ≤ 2 ∧
    max (imageDims 800 4 2).1 (imageDims 800 4 2).2 = 800 :=
  ⟨by decide, by decide, by decide,
    (image_dims_formula 800 4 2 (by decide) (by decide) (by decide)).2.2.2.2.2⟩

/-- C4: the render boundary never lets a failure escape: a load failure
(e.g. missing input file) yields `false` with no write; any later failure
yields `false` with no write; a write happens only on full success, is
unique, and its content is the completed buffer produced by the successful
pipeline. -/
theorem render_call_boundary (load : Except String (List Tri))
    (buildImage : List Tri → Except String FrameBuf) :
    ((renderPerspectiveRun load buildImage).1 = false →
      (renderPerspectiveRun load buildImage).2 = []) ∧
    (∀ e : String, load = Except.error e →
      renderPerspectiveRun load buildImage = (false, [])) ∧
    (∀ img : FrameBuf, img ∈ (renderPerspectiveRun load buildImage).2 →
      (renderPerspectiveRun load buildImage).1 = true ∧
      ∃ tris : List Tri, load = Except.ok tris ∧ buildImage tris = Except.ok img) ∧
    (renderPerspectiveRun load buildImage).2.length ≤ 1 := by
  cases load with
  | error e => simp [renderPerspectiveRun]
  | ok tris =>
    cases hb : buildImage tris with
    | error e => simp [renderPerspectiveRun, hb]
    | ok img =>
      refine ⟨?_, ?_, ?_, ?_⟩
      · intro hfalse
        simp [renderPerspectiveRun, hb] at hfalse
      · intro e he
        exact absurd he (by simp)
      · intro img2 hmem
        simp [renderPerspectiveRun, hb] at hmem
        subst hmem
        exact ⟨by simp [renderPerspectiveRun, hb], tris, rfl, hb⟩
      · simp [renderPerspectiveRun, hb]

/-- Witness for `render_call_boundary`: a missing-file load failure gives
result `false` and no write. -/
theorem render_call_boundary_witness :
    renderPerspectiveRun (Except.error "missing")
      (fun _ => Except.ok (initBuf : FrameBuf)) = (false, []) :=
  (render_call_boundary (Except.error "missing")
      (fun _ => Except.ok (initBuf : FrameBuf))).2.1 "missing" rfl

theorem rasterPix_cons (W H : ℤ) (t : Tri) (ts : List Tri) (ix iy : ℤ) (st : PixState) :
    rasterPix W H (t :: ts) ix iy st = rasterPix W H ts ix iy (pixelStep W H t ix iy st) := rfl

theorem rasterPix_append (W H : ℤ) (l1 l2 : List Tri) (ix iy : ℤ) (st : PixState) :
    rasterPix W H (l1 ++ l2) ix iy st = rasterPix W H l2 ix iy (rasterPix W H l1 ix iy st) := by
  unfold rasterPix
  exact List.foldl_append _ _ _ _

theorem rasterize_apply (W H : ℤ) (ts : List Tri) (buf : ℤ → ℤ → PixState) (ix iy : ℤ) :
    rasterize W H ts buf ix iy = rasterPix W H ts ix iy (buf ix iy) := by
  induction ts generalizing buf with
  | nil => rfl
  | cons t ts ih =>
    rw [rasterize, List.foldl_cons, rasterPix_cons]
    exact ih (stepBuf W H t buf)

theorem pixelStep_write (W H : ℤ) (t : Tri) (ix iy : ℤ) (st : PixState)
    (hc : retainedCovers W H t ix iy) (hlt : (zInterp t ix iy : WithTop ℚ) < st.depth) :
    pixelStep W H t ix iy st =
      ⟨(zInterp t ix iy : WithTop ℚ), t.red, t.green, t.blue, 1⟩ :=
  if_pos ⟨hc, hlt⟩

theorem pixelStep_skip_far (W H : ℤ) (t : Tri) (ix iy : ℤ) (st : PixState)
    (h : ¬ (zInterp t ix iy : WithTop ℚ) < st.depth) :
    pixelStep W H t ix iy st = st := by
  unfold pixelStep
  rw [if_neg]
  intro hand
  exact h hand.2

theorem pixelStep_skip_uncovered (W H : ℤ) (t : Tri) (ix iy : ℤ) (st : PixState)
    (h : ¬ retainedCovers W H t ix iy) :
    pixelStep W H t ix iy st = st := by
  unfold pixelStep
  rw [if_neg]
  intro hand
  exact h hand.1

theorem pixelStep_depth_le (W H : ℤ) (t : Tri) (ix iy : ℤ) (st : PixState) :
    (pixelStep W H t ix iy st).depth ≤ st.depth := by
  unfold pixelStep
  split_ifs with h
  · exact le_of_lt h.2
  · exact le_refl _

theorem rasterPix_depth_le (W H : ℤ) (ts : List Tri) (ix iy : ℤ) :
    ∀ st : PixState, (rasterPix W H ts ix iy st).depth ≤ st.depth := by
  induction ts with
  | nil => intro st; exact le_refl _
  | cons t ts ih =>
    intro st
    rw [rasterPix_cons]
    exact le_trans (ih (pixelStep W H t ix iy st)) (pixelStep_depth_le W H t ix iy st)

theorem pixelStep_depth_ne_top (W H : ℤ) (t : Tri) (ix iy : ℤ) (st : PixState) :
    (pixelStep W H t ix iy st).depth ≠ ⊤ ↔
      (st.depth ≠ ⊤ ∨ retainedCovers W H t ix iy) := by
  unfold pixelStep
  split_ifs with h
  · simp only [WithTop.coe_ne_top, ne_eq, not_false_eq_true, true_iff]
    exact Or.inr h.1
  · constructor
    · exact fun hd => Or.inl hd
    · rintro (hd | hc)
      · exact hd
      · have hz : ¬ (zInterp t ix iy : WithTop ℚ) < st.depth := fun hlt => h ⟨hc, hlt⟩
        exact ne_top_of_le_ne_top (WithTop.coe_ne_top) (not_lt.mp hz)

theorem rasterPix_depth_ne_top (W H : ℤ) (ts : List Tri) (ix iy : ℤ) :
    ∀ st : PixState, (rasterPix W H ts ix iy st).depth ≠ ⊤ ↔
      (st.depth ≠ ⊤ ∨ ∃ t ∈ ts, retainedCovers W H t ix iy) := by
  induction ts with
  | nil => intro st; simp [rasterPix]
  | cons t ts ih =>
    intro st
    rw [rasterPix_cons, ih, pixelStep_depth_ne_top, List.exists_mem_cons_iff]
    tauto

/-- The per-pixel alpha/depth invariant of the buffers. -/
def goodPix (st : PixState) : Prop := st.alpha = 1 ↔ st.depth ≠ ⊤

theorem pixelStep_good (W H : ℤ) (t : Tri) (ix iy : ℤ) (st : PixState)
    (h : goodPix st) : goodPix (pixelStep W H t ix iy st) := by
  unfold pixelStep
  split_ifs with hw
  · simp [goodPix]
  · exact h

theorem rasterPix_good (W H : ℤ) (ts : List Tri) (ix iy : ℤ) :
    ∀ st : PixState, goodPix st → goodPix (rasterPix W H ts ix iy st) := by
  induction ts with
  | nil => intro st h; exact h
  | cons t ts ih =>
    intro st h
    rw [rasterPix_cons]
    exact ih _ (pixelStep_good W H t ix iy st h)

theorem rasterPix_no_cover (W H : ℤ) (ts : List Tri) (ix iy : ℤ)
    (h : ∀ t ∈ ts, ¬ retainedCovers W H t ix iy) :
    ∀ st : PixState, rasterPix W H ts ix iy st = st := by
  induction ts with
  | nil => intro st; rfl
  | cons t ts ih =>
    intro st
    rw [rasterPix_cons, pixelStep_skip_uncovered W H t ix iy st (h t (by simp))]
    exact ih (fun t2 ht2 => h t2 (by simp [ht2])) st

/-- C1: at any pixel covered by two retained triangles with strictly
different interpolated view-space depths, starting from the initial
buffers, both processing orders give the same final state, that state is
the nearer triangle's flat-shaded RGB with alpha 1 and the nearer depth,
and in general a step changes the stored depth only by writing a value
strictly below it. -/
theorem depth_test_order_independent (W H ix iy : ℤ) (t1 t2 : Tri)
    (h1 : retainedCovers W H t1 ix iy) (h2 : retainedCovers W H t2 ix iy)
    (hz : zInterp t1 ix iy ≠ zInterp t2 ix iy) :
    rasterPix W H [t1, t2] ix iy initPix = rasterPix W H [t2, t1] ix iy initPix ∧
    (zInterp t1 ix iy < zInterp t2 ix iy →
      rasterPix W H [t1, t2] ix iy initPix =
        ⟨(zInterp t1 ix iy : WithTop ℚ), t1.red, t1.green, t1.blue, 1⟩) ∧
    (zInterp t2 ix iy < zInterp t1 ix iy →
      rasterPix W H [t1, t2] ix iy initPix =
        ⟨(zInterp t2 ix iy : WithTop ℚ), t2.red, t2.green, t2.blue, 1⟩) ∧
    (∀ t : Tri, ∀ st : PixState, (pixelStep W H t ix iy st).depth ≠ st.depth →
      (zInterp t ix iy : WithTop ℚ) < st.depth ∧
      (pixelStep W H t ix iy st).depth = (zInterp t ix iy : WithTop ℚ)) := by
  have hs1 : pixelStep W H t1 ix iy initPix =
      ⟨(zInterp t1 ix iy : WithTop ℚ), t1.red, t1.green, t1.blue, 1⟩ :=
    pixelStep_write W H t1 ix iy initPix h1 (WithTop.coe_lt_top _)
  have hs2 : pixelStep W H t2 ix iy initPix =
      ⟨(zInterp t2 ix iy : WithTop ℚ), t2.red, t2.green, t2.blue, 1⟩ :=
    pixelStep_write W H t2 ix iy initPix h2 (WithTop.coe_lt_top _)
  have h12 : rasterPix W H [t1, t2] ix iy initPix =
      pixelStep W H t2 ix iy (pixelStep W H t1 ix iy initPix) := rfl
  have h21 : rasterPix W H [t2, t1] ix iy initPix =
      pixelStep W H t1 ix iy (pixelStep W H t2 ix iy initPix) := rfl
  have hlast : ∀ t : Tri, ∀ st : PixState, (pixelStep W H t ix iy st).depth ≠ st.depth →
      (zInterp t ix iy : WithTop ℚ) < st.depth ∧
      (pixelStep W H t ix iy st).depth = (zInterp t ix iy : WithTop ℚ) := by
    intro t st hne
    unfold pixelStep at hne ⊢
    split_ifs at hne ⊢ with hcond
    · exact ⟨hcond.2, rfl⟩
    · exact absurd rfl hne
  rcases lt_or_gt_of_ne hz with hlt | hgt
  · have horder : rasterPix W H [t1, t2] ix iy initPix =
        ⟨(zInterp t1 ix iy : WithTop ℚ), t1.red, t1.green, t1.blue, 1⟩ := by
      rw [h12, hs1]
      apply pixelStep_skip_far
      simp only [not_lt]
      exact_mod_cast le_of_lt hlt
    refine ⟨?_, fun _ => horder, fun hgt2 => absurd hlt (not_lt.mpr (le_of_lt hgt2)), hlast⟩
    rw [horder, h21, hs2]
    rw [pixelStep_write W H t1 ix iy _ h1
      (by show (zInterp t1 ix iy : WithTop ℚ) < ((zInterp t2 ix iy : ℚ) : WithTop ℚ)
          exact_mod_cast hlt)]
  · have horder : rasterPix W H [t1, t2] ix iy initPix =
        ⟨(zInterp t2 ix iy : WithTop ℚ), t2.red, t2.green, t2.blue, 1⟩ := by
      rw [h12, hs1]
      rw [pixelStep_write W H t2 ix iy _ h2
        (by show (zInterp t2 ix iy : WithTop ℚ) < ((zInterp t1 ix iy : ℚ) : WithTop ℚ)
            exact_mod_cast hgt)]
    refine ⟨?_, fun hlt2 => absurd hlt2 (not_lt.mpr (le_of_lt hgt)), fun _ => horder, hlast⟩
    rw [horder, h21, hs2]
    rw [pixelStep_skip_far]
    simp only [not_lt]
    exact_mod_cast le_of_lt hgt

/-- Witness triangle for the order-independence claim: spans pixels (0,0)
to (9,9) at constant depth 5. -/
def triNear : Tri := ⟨0, 0, 5, 9, 0, 5, 0, 9, 5, 1/2, 1/2, 1/2⟩

/-- Second witness triangle: same footprint at constant depth 3. -/
def triFar : Tri := ⟨0, 0, 3, 9, 0, 3, 0, 9, 3, 1/4, 1/4, 3/4⟩

/-- Witness for `depth_test_order_independent`: both concrete triangles
cover pixel (1,1) of a 10-by-10 image at depths 5 and 3, and both
processing orders agree there. -/
theorem depth_test_order_independent_witness :
    retainedCovers 10 10 triNear 1 1 ∧ retainedCovers 10 10 triFar 1 1 ∧
    zInterp triNear 1 1 ≠ zInterp triFar 1 1 ∧
    rasterPix 10 10 [triNear, triFar] 1 1 initPix =
      rasterPix 10 10 [triFar, triNear] 1 1 initPix :=
  ⟨by with_unfolding_all decide, by with_unfolding_all decide, by with_unfolding_all decide,
    (depth_test_order_independent 10 10 1 1 triNear triFar
      (by with_unfolding_all decide) (by with_unfolding_all decide)
      (by with_unfolding_all decide)).1⟩

/-- C6: a triangle whose signed-area denominator has absolute value below
0.5 is skipped entirely: its per-pixel step never changes any buffer cell,
and inserting it anywhere in the triangle list leaves the whole
rasterization output unchanged (in particular a zero-area triangle writes
nothing and causes no failure, the guard running before any division by
`denom`). -/
theorem degenerate_triangle_skipped (W H : ℤ) (t : Tri) (hdeg : |denom t| < 1 / 2) :
    (∀ ix iy : ℤ, ∀ st : PixState, pixelStep W H t ix iy st = st) ∧
    (∀ ts1 ts2 : List Tri, ∀ buf : ℤ → ℤ → PixState, ∀ ix iy : ℤ,
      rasterize W H (ts1 ++ t :: ts2) buf ix iy = rasterize W H (ts1 ++ ts2) buf ix iy) := by
  have hstep : ∀ ix iy : ℤ, ∀ st : PixState, pixelStep W H t ix iy st = st := by
    intro ix iy st
    apply pixelStep_skip_uncovered
    intro hc
    exact absurd hc.2.1 (not_le.mpr hdeg)
  refine ⟨hstep, ?_⟩
  intro ts1 ts2 buf ix iy
  rw [rasterize_apply, rasterize_apply, rasterPix_append, rasterPix_append,
    rasterPix_cons, hstep]

/-- Witness degenerate triangle: all three vertices coincide, so its signed
area is zero. -/
def triDegen : Tri := ⟨1, 1, 0, 1, 1, 0, 1, 1, 0, 1, 0, 0⟩

/-- Witness for `degenerate_triangle_skipped`: the zero-area triangle has
denominator below the tolerance and leaves a buffer cell unchanged. -/
theorem degenerate_triangle_skipped_witness :
    |denom triDegen| < 1 / 2 ∧ pixelStep 10 10 triDegen 1 1 initPix = initPix :=
  ⟨by with_unfolding_all decide,
    (degenerate_triangle_skipped 10 10 triDegen (by with_unfolding_all decide)).1 1 1 initPix⟩

/-- C7: each pixel's depth starts at infinity and is non-increasing across
the loop; after any prefix of the loop the pixel's alpha is 1 exactly when
its depth is finite; and in the final image the RGBA of a pixel is all zero
exactly when no retained triangle covers it. -/
theorem depth_monotone_alpha_depth_invariant (W H ix iy : ℤ) :
    initPix.depth = ⊤ ∧
    (∀ ts more : List Tri,
      (rasterPix W H (ts ++ more) ix iy initPix).depth ≤
        (rasterPix W H ts ix iy initPix).depth) ∧
    (∀ ts : List Tri,
      (rasterPix W H ts ix iy initPix).alpha = 1 ↔
        (rasterPix W H ts ix iy initPix).depth ≠ ⊤) ∧
    (∀ ts : List Tri,
      ((rasterize W H ts initBuf ix iy).red = 0 ∧ (rasterize W H ts initBuf ix iy).green = 0 ∧
        (rasterize W H ts initBuf ix iy).blue = 0 ∧ (rasterize W H ts initBuf ix iy).alpha = 0) ↔
      ¬ ∃ t ∈ ts, retainedCovers W H t ix iy) := by
  have hgood : ∀ ts : List Tri, goodPix (rasterPix W H ts ix iy initPix) := by
    intro ts
    apply rasterPix_good
    simp [goodPix, initPix]
  refine ⟨rfl, ?_, ?_, ?_⟩
  · intro ts more
    rw [rasterPix_append]
    exact rasterPix_depth_le W H more ix iy _
  · intro ts
    exact hgood ts
  · intro ts
    rw [rasterize_apply]
    have hinit : initBuf ix iy = initPix := rfl
    rw [hinit]
    constructor
    · intro hzero
      intro hex
      have hne : (rasterPix W H ts ix iy initPix).depth ≠ ⊤ := by
        rw [rasterPix_depth_ne_top]
        exact Or.inr hex
      have halpha : (rasterPix W H ts ix iy initPix).alpha = 1 := (hgood ts).mpr hne
      rw [hzero.2.2.2] at halpha
      exact absurd halpha (by norm_num)
    · intro hnone
      have hid : rasterPix W H ts ix iy initPix = initPix := by
        apply rasterPix_no_cover
        intro t ht hc
        exact hnone ⟨t, ht, hc⟩
      rw [hid]
      exact ⟨rfl, rfl, rfl, rfl⟩

/-- Witness for `depth_monotone_alpha_depth_invariant` at a concrete pixel:
processing the empty list and then one covering triangle never raises the
depth. -/
theorem depth_monotone_alpha_depth_invariant_witness :
    (rasterPix 10 10 ([] ++ [⟨0, 0, 1, 4, 0, 1, 0, 4, 1, 1, 1, 1⟩]) 1 1 initPix).depth ≤
      (rasterPix 10 10 [] 1 1 initPix).depth :=
  (depth_monotone_alpha_depth_invariant 10 10 1 1).2.1 [] [⟨0, 0, 1, 4, 0, 1, 0, 4, 1, 1, 1, 1⟩]

end StlPng



